import Mathlib

/-!
Verification of the single-payload enum tag codec of the Swift runtime, as
exercised by `unittests/runtime/Enum.cpp`.  The codec implementation
(`swift_getEnumTagSinglePayloadGeneric` / `swift_storeEnumTagSinglePayloadGeneric`)
is not among the source files, only its unit tests are, so the codec itself is
modelled from the specification (sections 4.1-4.3), calibrated against the unit
tests where the tests pin down the behaviour.  The payload capability used by
the tests (`byte_getExtraInhabitantTag` / `byte_storeExtraInhabitantTag`) is
translated directly from the source.

Buffers are byte lists (`List Nat`); multi-byte integers use the little-endian
convention, which is the byte order asserted by the non-`__BIG_ENDIAN__` branch
of the unit tests.
-/

/-- Read a byte list as an unsigned integer, little-endian (first byte is the
least significant). -/
def readLE (bytes : List Nat) : Nat :=
  bytes.foldr (fun b acc => b + 256 * acc) 0

/-- Write `val` as a `width`-byte unsigned integer, little-endian. -/
def writeLE : Nat → Nat → List Nat
  | 0, _ => []
  | w + 1, val => (val % 256) :: writeLE w (val / 256)

theorem writeLE_length (w v : Nat) : (writeLE w v).length = w := by
  induction w generalizing v with
  | zero => rfl
  | succ n ih => simp [writeLE, ih]

theorem writeLE_zero (w : Nat) : writeLE w 0 = List.replicate w 0 := by
  induction w with
  | zero => rfl
  | succ n ih => simp [writeLE, List.replicate, ih]

theorem readLE_nil : readLE [] = 0 := rfl

theorem readLE_cons (b : Nat) (l : List Nat) :
    readLE (b :: l) = b + 256 * readLE l := rfl

theorem readLE_writeLE (w v : Nat) (h : v < 256 ^ w) :
    readLE (writeLE w v) = v := by
  induction w generalizing v with
  | zero =>
    simp only [writeLE, readLE_nil]
    omega
  | succ n ih =>
    have hdiv : v / 256 < 256 ^ n := by
      rw [Nat.div_lt_iff_lt_mul (by norm_num)]
      rw [pow_succ] at h
      exact h
    simp only [writeLE, readLE_cons, ih (v / 256) hdiv]
    omega

theorem readLE_writeLE_zero (w : Nat) : readLE (writeLE w 0) = 0 :=
  readLE_writeLE w 0 (pow_pos (by norm_num) w)

/-- Auxiliary fuel-bounded search for the least number of extra bytes whose
added capacity reaches `t` tag values, starting from capacity `acc`. -/
def leastBytesAux : Nat → Nat → Nat → Nat
  | 0, _, _ => 0
  | fuel + 1, t, acc => if t ≤ acc then 0 else 1 + leastBytesAux fuel t (acc * 256)

/-- Least `b` with `256 ^ b ≥ t` (for `t` reachable within the fuel bound,
which `leastBytes` instantiates adequately). -/
def leastBytes (t : Nat) : Nat := leastBytesAux t t 1

theorem leastBytesAux_spec (fuel : Nat) :
    ∀ t acc : Nat, 0 < acc → t ≤ acc * 256 ^ fuel →
      t ≤ acc * 256 ^ leastBytesAux fuel t acc ∧
      ∀ b, b < leastBytesAux fuel t acc → acc * 256 ^ b < t := by
  induction fuel with
  | zero =>
    intro t acc _ h
    simp only [leastBytesAux, pow_zero, mul_one] at h ⊢
    exact ⟨h, by omega⟩
  | succ n ih =>
    intro t acc hacc h
    by_cases hta : t ≤ acc
    · simp only [leastBytesAux, if_pos hta, pow_zero, mul_one]
      exact ⟨hta, by omega⟩
    · have h' : t ≤ acc * 256 * 256 ^ n := by
        rw [pow_succ, ← mul_assoc, mul_right_comm] at h
        exact h
      have hrec := ih t (acc * 256) (by positivity) h'
      simp only [leastBytesAux, if_neg hta]
      constructor
      · calc t ≤ acc * 256 * 256 ^ leastBytesAux n t (acc * 256) := hrec.1
          _ = acc * 256 ^ (1 + leastBytesAux n t (acc * 256)) := by
              rw [pow_add, pow_one]; ring
      · intro b hb
        match b with
        | 0 =>
          simp only [pow_zero, mul_one]
          omega
        | m + 1 =>
          have hm : m < leastBytesAux n t (acc * 256) := by omega
          calc acc * 256 ^ (m + 1) = acc * 256 * 256 ^ m := by
                rw [pow_succ]; ring
            _ < t := hrec.2 m hm

theorem leastBytes_spec (t : Nat) :
    t ≤ 256 ^ leastBytes t ∧ ∀ b, b < leastBytes t → 256 ^ b < t := by
  have hfuel : t ≤ 1 * 256 ^ t := by
    have h1 : t < 2 ^ t := Nat.lt_two_pow t
    have h2 : 2 ^ t ≤ 256 ^ t := Nat.pow_le_pow_left (by norm_num) t
    omega
  have h := leastBytesAux_spec t t 1 (by norm_num) hfuel
  simpa using h

theorem leastBytes_mono {t1 t2 : Nat} (h : t1 ≤ t2) :
    leastBytes t1 ≤ leastBytes t2 := by
  by_contra hc
  have hlt : leastBytes t2 < leastBytes t1 := by omega
  have h1 := (leastBytes_spec t1).2 _ hlt
  have h2 := (leastBytes_spec t2).1
  omega

/-- Number of bit patterns of the payload region, `2 ^ (8 * payloadSize)`. -/
def payloadCardinality (ps : Nat) : Nat := 2 ^ (8 * ps)

theorem payloadCardinality_eq (ps : Nat) : payloadCardinality ps = 256 ^ ps := by
  unfold payloadCardinality
  rw [pow_mul]
  norm_num

theorem payloadCardinality_pos (ps : Nat) : 0 < payloadCardinality ps :=
  pow_pos (by norm_num) _

/-- Modelled from the spec: section 4.1 layout sizing of the codec, whose
implementation is absent from the source tree (only its unit tests are
present).  When the empty cases do not fit in spare patterns, the overflow
region must be wide enough to represent the largest overflow tag
`(numEmptyCases - numXI - 1) / payloadCardinality + 1` beside the reserved
all-zero pattern, i.e. the least `b` with
`256 ^ b ≥ (numEmptyCases - numXI - 1) / payloadCardinality + 2`; the spec's
literal least-`b` inequality `256 ^ b * payloadCardinality ≥ overflow + 1` is
contradicted by the unit tests (they use a 1-byte overflow region for
`payloadSize = 1, numXI = 2, numEmptyCases = 4`, where that inequality already
holds at `b = 0`), so the sizing follows the tests. -/
def overflowBytes (ps xi nec : Nat) : Nat :=
  if nec ≤ xi then 0
  else leastBytes ((nec - xi - 1) / payloadCardinality ps + 2)

/-- Modelled from the spec: total representation size, section 6. -/
def sizeOfRepresentation (ps xi nec : Nat) : Nat := ps + overflowBytes ps xi nec

theorem overflowBytes_of_le {ps xi nec : Nat} (h : nec ≤ xi) :
    overflowBytes ps xi nec = 0 := by
  simp [overflowBytes, h]

theorem overflowBytes_spec {ps xi nec : Nat} (h : xi < nec) :
    (nec - xi - 1) / payloadCardinality ps + 2 ≤ 256 ^ overflowBytes ps xi nec ∧
    ∀ b, b < overflowBytes ps xi nec →
      256 ^ b < (nec - xi - 1) / payloadCardinality ps + 2 := by
  unfold overflowBytes
  rw [if_neg (by omega)]
  exact leastBytes_spec _

theorem overflowBytes_pos {ps xi nec : Nat} (h : xi < nec) :
    0 < overflowBytes ps xi nec := by
  rcases Nat.eq_zero_or_pos (overflowBytes ps xi nec) with h0 | h0
  · exfalso
    have := (@overflowBytes_spec ps xi nec h).1
    rw [h0] at this
    simp at this
  · exact h0

theorem overflow_tag_fit {ps xi nec i : Nat} (hxi : xi < i) (hle : i ≤ nec) :
    (i - xi - 1) / payloadCardinality ps + 1 < 256 ^ overflowBytes ps xi nec := by
  have hspec := (@overflowBytes_spec ps xi nec (lt_of_lt_of_le hxi hle)).1
  have hmono : (i - xi - 1) / payloadCardinality ps ≤
      (nec - xi - 1) / payloadCardinality ps :=
    Nat.div_le_div_right (by omega)
  omega

/-- The capability interface a payload type exposes to the codec (spec
section 3): payload byte size, extra-inhabitant count, and the two spare-tag
callbacks, which act on the payload region only. -/
structure PayloadCapability where
  payloadSize : Nat
  numXI : Nat
  readSpareTag : List Nat → Nat
  writeSpareTag : List Nat → Nat → List Nat

/-- Modelled from the spec: section 4.2 decode
(`swift_getEnumTagSinglePayloadGeneric`, absent from the source tree; only its
unit tests are present).  Reads the overflow region first, then the spare-tag
callback, and defaults to the payload case. -/
def decode (cap : PayloadCapability) (nec : Nat) (buf : List Nat) : Nat :=
  if nec = 0 then 0
  else if 0 < overflowBytes cap.payloadSize cap.numXI nec ∧
      readLE ((buf.drop cap.payloadSize).take
        (overflowBytes cap.payloadSize cap.numXI nec)) ≠ 0 then
    min nec (cap.numXI +
      (readLE ((buf.drop cap.payloadSize).take
        (overflowBytes cap.payloadSize cap.numXI nec)) - 1) *
        payloadCardinality cap.payloadSize +
      readLE (buf.take cap.payloadSize) + 1)
  else if 0 < cap.numXI then
    if cap.readSpareTag (buf.take cap.payloadSize) = 0 then 0
    else min (cap.readSpareTag (buf.take cap.payloadSize)) nec
  else 0

/-- Modelled from the spec: section 4.3 encode
(`swift_storeEnumTagSinglePayloadGeneric`, absent from the source tree; only
its unit tests are present).  Case 0 keeps the payload region and zeroes the
overflow region; cases up to `numXI` use the spare-tag callback; the remaining
cases split into a payload-region integer and an overflow tag. -/
def encode (cap : PayloadCapability) (nec : Nat) (buf : List Nat)
    (caseIndex : Nat) : List Nat :=
  if caseIndex = 0 then
    buf.take cap.payloadSize ++
      writeLE (overflowBytes cap.payloadSize cap.numXI nec) 0
  else if caseIndex ≤ cap.numXI then
    cap.writeSpareTag (buf.take cap.payloadSize) caseIndex ++
      writeLE (overflowBytes cap.payloadSize cap.numXI nec) 0
  else
    writeLE cap.payloadSize
      ((caseIndex - cap.numXI - 1) % payloadCardinality cap.payloadSize) ++
      writeLE (overflowBytes cap.payloadSize cap.numXI nec)
        ((caseIndex - cap.numXI - 1) / payloadCardinality cap.payloadSize + 1)

/-- Translated from `byte_getExtraInhabitantTag` in
`unittests/runtime/Enum.cpp`: bytes 254 and 255 are the spare patterns, with
tags `byte - 253`; every other byte is a genuine value (tag 0). -/
def byte_getExtraInhabitantTag (payload : List Nat) : Nat :=
  if 253 < payload.headD 0 then payload.headD 0 - 253 else 0

/-- Translated from `byte_storeExtraInhabitantTag` in
`unittests/runtime/Enum.cpp`: spare tag `tag` is stored as byte `253 + tag`. -/
def byte_storeExtraInhabitantTag (payload : List Nat) (tag : Nat) : List Nat :=
  (253 + tag) :: payload.drop 1

/-- The 1-byte payload capability with two extra inhabitants, mirroring the
mocked value witness table `Int8WithExtraInhabitantValueWitness`
(`XI_TMBi8_`). -/
def byteXICap : PayloadCapability :=
  ⟨1, 2, byte_getExtraInhabitantTag, byte_storeExtraInhabitantTag⟩

/-- The plain 1-byte payload capability with no extra inhabitants, mirroring
`METADATA_SYM(Bi8_)`. -/
def byteNoXICap : PayloadCapability :=
  ⟨1, 0, fun _ => 0, fun p _ => p⟩

-- Fidelity of the model: every assertion of `TEST(EnumTest,
-- getEnumCaseSinglePayload)` and `TEST(EnumTest, storeEnumTagSinglePayload)`
-- (little-endian branch) holds of the modelled codec.
example : decode byteNoXICap 512 [0, 0] = 0 := by decide
example : decode byteNoXICap 512 [255, 0] = 0 := by decide
example : decode byteNoXICap 512 [0, 1] = 1 := by decide
example : decode byteNoXICap 512 [255, 1] = 256 := by decide
example : decode byteNoXICap 512 [255, 2] = 512 := by decide
example : decode byteNoXICap 131072 [0, 0, 0] = 0 := by decide
example : decode byteNoXICap 131072 [255, 0, 0] = 0 := by decide
example : decode byteNoXICap 131072 [0, 0, 1] = 65281 := by decide
example : decode byteXICap 2 [0] = 0 := by decide
example : decode byteXICap 2 [253] = 0 := by decide
example : decode byteXICap 2 [254] = 1 := by decide
example : decode byteXICap 2 [255] = 2 := by decide
example : decode byteXICap 4 [0, 0] = 0 := by decide
example : decode byteXICap 4 [253, 0] = 0 := by decide
example : decode byteXICap 4 [254, 0] = 1 := by decide
example : decode byteXICap 4 [255, 0] = 2 := by decide
example : decode byteXICap 4 [0, 1] = 3 := by decide
example : decode byteXICap 4 [1, 1] = 4 := by decide
example : encode byteNoXICap 512 [219, 123] 0 = [219, 0] := by decide
example : encode byteNoXICap 512 [219, 123] 1 = [0, 1] := by decide
example : encode byteNoXICap 512 [219, 123] 256 = [255, 1] := by decide
example : encode byteNoXICap 512 [219, 123] 512 = [255, 2] := by decide
example : encode byteNoXICap 131072 [219, 123, 77] 0 = [219, 0, 0] := by decide
example : encode byteNoXICap 131072 [219, 123, 77] 1 = [0, 1, 0] := by decide
example : encode byteNoXICap 131072 [219, 124, 77] 256 = [255, 1, 0] := by decide
example : encode byteNoXICap 131072 [219, 123, 77] 257 = [0, 2, 0] := by decide
example : encode byteNoXICap 131072 [219, 123, 77] 131072 = [255, 0, 2] := by decide
example : encode byteXICap 2 [219] 0 = [219] := by decide
example : encode byteXICap 2 [219] 1 = [254] := by decide
example : encode byteXICap 2 [219] 2 = [255] := by decide
example : encode byteXICap 4 [219, 123] 0 = [219, 0] := by decide
example : encode byteXICap 4 [219, 123] 1 = [254, 0] := by decide
example : encode byteXICap 4 [219, 123] 2 = [255, 0] := by decide
example : encode byteXICap 4 [219, 123] 3 = [0, 1] := by decide
example : encode byteXICap 4 [219, 123] 4 = [1, 1] := by decide

theorem take_append_exact (l1 l2 : List Nat) (n : Nat) (h : l1.length = n) :
    (l1 ++ l2).take n = l1 := by
  subst h
  rw [List.take_append_eq_append_take]
  simp

theorem drop_append_exact (l1 l2 : List Nat) (n : Nat) (h : l1.length = n) :
    (l1 ++ l2).drop n = l2 := by
  subst h
  rw [List.drop_append_eq_append_drop]
  simp

theorem take_all_of_length (l : List Nat) (n : Nat) (h : l.length = n) :
    l.take n = l := by
  subst h
  exact List.take_length l

theorem take_length_eq (buf : List Nat) (n : Nat) (h : n ≤ buf.length) :
    (buf.take n).length = n := by
  rw [List.length_take]
  omega

/-- Core round-trip lemma shared by the round-trip and disjointness claims:
for a capability whose spare-tag callbacks are mutually consistent and
length-preserving, a buffer of the derived representation size, and a case
index within range, decoding after encoding recovers the case index - for
case 0 under the additional requirement that the starting payload region
reads as a genuine value. -/
theorem decode_encode (cap : PayloadCapability) (nec caseIndex : Nat)
    (buf : List Nat)
    (hread : ∀ p k, 1 ≤ k → k ≤ cap.numXI →
      cap.readSpareTag (cap.writeSpareTag p k) = k)
    (hwlen : ∀ p k, p.length = cap.payloadSize →
      (cap.writeSpareTag p k).length = cap.payloadSize)
    (hbuf : buf.length = sizeOfRepresentation cap.payloadSize cap.numXI nec)
    (hle : caseIndex ≤ nec)
    (h0 : caseIndex = 0 → cap.readSpareTag (buf.take cap.payloadSize) = 0) :
    decode cap nec (encode cap nec buf caseIndex) = caseIndex := by
  have hpsle : cap.payloadSize ≤ buf.length := by
    rw [hbuf]
    unfold sizeOfRepresentation
    omega
  have htake : (buf.take cap.payloadSize).length = cap.payloadSize :=
    take_length_eq buf cap.payloadSize hpsle
  by_cases hc0 : caseIndex = 0
  · subst hc0
    have henc : encode cap nec buf 0 =
        buf.take cap.payloadSize ++
          writeLE (overflowBytes cap.payloadSize cap.numXI nec) 0 := by
      simp [encode]
    rw [henc]
    by_cases hnec : nec = 0
    · simp [decode, hnec]
    · unfold decode
      rw [if_neg hnec]
      rw [drop_append_exact _ _ _ htake, take_append_exact _ _ _ htake]
      have hE : readLE ((writeLE (overflowBytes cap.payloadSize cap.numXI nec) 0).take
          (overflowBytes cap.payloadSize cap.numXI nec)) = 0 := by
        rw [take_all_of_length _ _ (writeLE_length _ _), readLE_writeLE_zero]
      rw [if_neg (by simp [hE])]
      by_cases hxi : 0 < cap.numXI
      · rw [if_pos hxi, if_pos (h0 rfl)]
      · rw [if_neg hxi]
  · by_cases hcxi : caseIndex ≤ cap.numXI
    · -- spare-pattern path
      have henc : encode cap nec buf caseIndex =
          cap.writeSpareTag (buf.take cap.payloadSize) caseIndex ++
            writeLE (overflowBytes cap.payloadSize cap.numXI nec) 0 := by
        unfold encode
        rw [if_neg hc0, if_pos hcxi]
      have hW : (cap.writeSpareTag (buf.take cap.payloadSize) caseIndex).length =
          cap.payloadSize := hwlen _ _ htake
      rw [henc]
      unfold decode
      rw [if_neg (by omega : ¬ nec = 0)]
      rw [drop_append_exact _ _ _ hW, take_append_exact _ _ _ hW]
      have hE : readLE ((writeLE (overflowBytes cap.payloadSize cap.numXI nec) 0).take
          (overflowBytes cap.payloadSize cap.numXI nec)) = 0 := by
        rw [take_all_of_length _ _ (writeLE_length _ _), readLE_writeLE_zero]
      rw [if_neg (by simp [hE])]
      have hk : cap.readSpareTag
          (cap.writeSpareTag (buf.take cap.payloadSize) caseIndex) = caseIndex :=
        hread _ _ (by omega) hcxi
      rw [if_pos (by omega : 0 < cap.numXI), hk, if_neg hc0]
      exact min_eq_left hle
    · -- overflow path
      have hxi : cap.numXI < caseIndex := by omega
      have hxinec : cap.numXI < nec := lt_of_lt_of_le hxi hle
      have hobpos : 0 < overflowBytes cap.payloadSize cap.numXI nec :=
        overflowBytes_pos hxinec
      have henc : encode cap nec buf caseIndex =
          writeLE cap.payloadSize
            ((caseIndex - cap.numXI - 1) % payloadCardinality cap.payloadSize) ++
            writeLE (overflowBytes cap.payloadSize cap.numXI nec)
              ((caseIndex - cap.numXI - 1) / payloadCardinality cap.payloadSize + 1) := by
        unfold encode
        rw [if_neg hc0, if_neg hcxi]
      rw [henc]
      unfold decode
      rw [if_neg (by omega : ¬ nec = 0)]
      rw [drop_append_exact _ _ _ (writeLE_length _ _),
        take_append_exact _ _ _ (writeLE_length _ _)]
      have hEfit : (caseIndex - cap.numXI - 1) / payloadCardinality cap.payloadSize + 1 <
          256 ^ overflowBytes cap.payloadSize cap.numXI nec :=
        overflow_tag_fit hxi hle
      have hE : readLE ((writeLE (overflowBytes cap.payloadSize cap.numXI nec)
          ((caseIndex - cap.numXI - 1) / payloadCardinality cap.payloadSize + 1)).take
          (overflowBytes cap.payloadSize cap.numXI nec)) =
          (caseIndex - cap.numXI - 1) / payloadCardinality cap.payloadSize + 1 := by
        rw [take_all_of_length _ _ (writeLE_length _ _)]
        exact readLE_writeLE _ _ hEfit
      rw [if_pos (by rw [hE]; exact ⟨hobpos, Nat.succ_ne_zero _⟩)]
      have hP : readLE (writeLE cap.payloadSize
          ((caseIndex - cap.numXI - 1) % payloadCardinality cap.payloadSize)) =
          (caseIndex - cap.numXI - 1) % payloadCardinality cap.payloadSize := by
        apply readLE_writeLE
        rw [← payloadCardinality_eq]
        exact Nat.mod_lt _ (payloadCardinality_pos cap.payloadSize)
      rw [hE, hP]
      have hsplit : (caseIndex - cap.numXI - 1) / payloadCardinality cap.payloadSize *
            payloadCardinality cap.payloadSize +
          (caseIndex - cap.numXI - 1) % payloadCardinality cap.payloadSize =
          caseIndex - cap.numXI - 1 :=
        Nat.div_add_mod' _ _
      have harith : cap.numXI +
          ((caseIndex - cap.numXI - 1) / payloadCardinality cap.payloadSize + 1 - 1) *
            payloadCardinality cap.payloadSize +
          (caseIndex - cap.numXI - 1) % payloadCardinality cap.payloadSize + 1 =
          caseIndex := by
        simp only [Nat.add_sub_cancel]
        rw [add_assoc cap.numXI
          ((caseIndex - cap.numXI - 1) / payloadCardinality cap.payloadSize *
            payloadCardinality cap.payloadSize)
          ((caseIndex - cap.numXI - 1) % payloadCardinality cap.payloadSize),
          hsplit]
        omega
      rw [harith]
      exact min_eq_right hle

theorem byteXI_read_write (p : List Nat) (k : Nat) (h1 : 1 ≤ k)
    (h2 : k ≤ byteXICap.numXI) :
    byteXICap.readSpareTag (byteXICap.writeSpareTag p k) = k := by
  show byte_getExtraInhabitantTag (byte_storeExtraInhabitantTag p k) = k
  simp only [byte_getExtraInhabitantTag, byte_storeExtraInhabitantTag,
    List.headD_cons]
  rw [if_pos (by omega)]
  omega

theorem byteXI_write_length (p : List Nat) (k : Nat)
    (h : p.length = byteXICap.payloadSize) :
    (byteXICap.writeSpareTag p k).length = byteXICap.payloadSize := by
  show (byte_storeExtraInhabitantTag p k).length = 1
  simp only [byte_storeExtraInhabitantTag, List.length_cons, List.length_drop]
  have : p.length = 1 := h
  omega

theorem byteNoXI_read_write (p : List Nat) (k : Nat) (h1 : 1 ≤ k)
    (h2 : k ≤ byteNoXICap.numXI) :
    byteNoXICap.readSpareTag (byteNoXICap.writeSpareTag p k) = k := by
  exact absurd (h1.trans h2) (by decide)

theorem byteNoXI_write_length (p : List Nat) (k : Nat)
    (h : p.length = byteNoXICap.payloadSize) :
    (byteNoXICap.writeSpareTag p k).length = byteNoXICap.payloadSize := h

/-- C1: the claim as frozen is false. On the valid layout `payloadSize = 1`,
`numXI = 2`, `numEmptyCases = 2` (the coherent test capability), with the
valid starting buffer `[254]` of the derived total length, encoding case 0
leaves the payload byte `254` in place (as the spec's case-0 rule requires),
and decoding then reads spare pattern `254` as case 1, not case 0: the
round trip fails for `caseIndex = 0` on a starting buffer whose payload region
already holds a spare pattern. -/
theorem c1_round_trip_counterexample :
    0 < byteXICap.payloadSize ∧
    [(254 : Nat)].length =
      sizeOfRepresentation byteXICap.payloadSize byteXICap.numXI 2 ∧
    encode byteXICap 2 [254] 0 = [254] ∧
    decode byteXICap 2 (encode byteXICap 2 [254] 0) = 1 := by decide

/-- C1 (amended): for every capability with consistent, length-preserving
spare-tag callbacks, every `caseIndex` in `[0, numEmptyCases]` and every
starting buffer of the derived total length, encode-then-decode returns
exactly `caseIndex` - provided that when `caseIndex = 0` the starting payload
region reads as a genuine payload value (spare tag 0); for `caseIndex ≥ 1`
every starting buffer content works. -/
theorem c1_round_trip (cap : PayloadCapability) (nec caseIndex : Nat)
    (buf : List Nat) (hps : 0 < cap.payloadSize)
    (hread : ∀ p k, 1 ≤ k → k ≤ cap.numXI →
      cap.readSpareTag (cap.writeSpareTag p k) = k)
    (hwlen : ∀ p k, p.length = cap.payloadSize →
      (cap.writeSpareTag p k).length = cap.payloadSize)
    (hbuf : buf.length = sizeOfRepresentation cap.payloadSize cap.numXI nec)
    (hle : caseIndex ≤ nec)
    (h0 : caseIndex = 0 → cap.readSpareTag (buf.take cap.payloadSize) = 0) :
    decode cap nec (encode cap nec buf caseIndex) = caseIndex :=
  decode_encode cap nec caseIndex buf hread hwlen hbuf hle h0

/-- Witness for C1 (amended): round trip of case 3 on the extra-inhabitant
layout with four empty cases. -/
theorem c1_round_trip_witness :
    decode byteXICap 4 (encode byteXICap 4 [219, 123] 3) = 3 :=
  c1_round_trip byteXICap 4 3 [219, 123] (by decide) byteXI_read_write
    byteXI_write_length (by decide) (by decide) (fun h => absurd h (by decide))

/-- C2: encoding case 0 into a buffer of the derived total length leaves the
payload region byte-for-byte unchanged, writes zero into every byte of the
overflow region, and preserves the buffer length (so no byte outside the two
regions is touched). -/
theorem c2_case_zero_frame (cap : PayloadCapability) (nec : Nat)
    (buf : List Nat)
    (hbuf : buf.length = sizeOfRepresentation cap.payloadSize cap.numXI nec) :
    (encode cap nec buf 0).take cap.payloadSize = buf.take cap.payloadSize ∧
    (encode cap nec buf 0).drop cap.payloadSize =
      List.replicate (overflowBytes cap.payloadSize cap.numXI nec) 0 ∧
    (encode cap nec buf 0).length = buf.length := by
  have hpsle : cap.payloadSize ≤ buf.length := by
    rw [hbuf]
    unfold sizeOfRepresentation
    omega
  have htake : (buf.take cap.payloadSize).length = cap.payloadSize :=
    take_length_eq buf cap.payloadSize hpsle
  have henc : encode cap nec buf 0 =
      buf.take cap.payloadSize ++
        writeLE (overflowBytes cap.payloadSize cap.numXI nec) 0 := by
    simp [encode]
  refine ⟨?_, ?_, ?_⟩
  · rw [henc, take_append_exact _ _ _ htake]
  · rw [henc, drop_append_exact _ _ _ htake, writeLE_zero]
  · rw [henc, List.length_append, writeLE_length, htake, hbuf]
    rfl

/-- Witness for C2 at the no-extra-inhabitant 512-case layout. -/
theorem c2_case_zero_frame_witness :
    (encode byteNoXICap 512 [219, 123] 0).take byteNoXICap.payloadSize =
      [219, 123].take byteNoXICap.payloadSize ∧
    (encode byteNoXICap 512 [219, 123] 0).drop byteNoXICap.payloadSize =
      List.replicate (overflowBytes byteNoXICap.payloadSize byteNoXICap.numXI 512) 0 ∧
    (encode byteNoXICap 512 [219, 123] 0).length = [219, 123].length :=
  c2_case_zero_frame byteNoXICap 512 [219, 123] (by decide)

/-- C3: the claim as frozen is false. At `payloadSize = 1`, `numXI = 2`,
`numEmptyCases = 4`, the claimed least-`b` condition
`256 ^ b * 2 ^ (8 * payloadSize) ≥ (numEmptyCases - numXI) + 1` already holds
at `b = 0` (`256 ≥ 3`), yet the codec's derived constant is 1 overflow byte -
as the unit tests demonstrate by using two-byte buffers for this layout - so
`overflowBytes` is not the smallest `b` satisfying the claimed inequality. -/
theorem c3_overflow_sizing_counterexample :
    overflowBytes 1 2 4 = 1 ∧
    (4 - 2) + 1 ≤ 256 ^ 0 * payloadCardinality 1 := by decide

/-- C3 (amended): `overflowBytes` is 0 whenever `numEmptyCases ≤ numXI`, and
otherwise is the smallest non-negative `b` such that
`256 ^ b ≥ (numEmptyCases - numXI - 1) / 2 ^ (8 * payloadSize) + 2` (the
overflow region must also represent the largest overflow tag beside the
reserved all-zero pattern); in particular, for `payloadSize = 1` and
`numXI = 0` it is 1 when `numEmptyCases = 512` and 2 when
`numEmptyCases = 131072`, so the total buffer lengths are 2 and 3 bytes. -/
theorem c3_overflow_sizing :
    (∀ ps xi nec : Nat, nec ≤ xi → overflowBytes ps xi nec = 0) ∧
    (∀ ps xi nec : Nat, xi < nec →
      (nec - xi - 1) / payloadCardinality ps + 2 ≤
        256 ^ overflowBytes ps xi nec ∧
      ∀ b, b < overflowBytes ps xi nec →
        256 ^ b < (nec - xi - 1) / payloadCardinality ps + 2) ∧
    overflowBytes 1 0 512 = 1 ∧ overflowBytes 1 0 131072 = 2 ∧
    sizeOfRepresentation 1 0 512 = 2 ∧ sizeOfRepresentation 1 0 131072 = 3 :=
  ⟨fun _ _ _ h => overflowBytes_of_le h,
   fun _ _ _ h => overflowBytes_spec h,
   by decide, by decide, by decide, by decide⟩

/-- Witness for C3 (amended): the zero branch at `numEmptyCases ≤ numXI` and
the least-`b` bound at the 512-case layout. -/
theorem c3_overflow_sizing_witness :
    overflowBytes 1 2 2 = 0 ∧
    (512 - 0 - 1) / payloadCardinality 1 + 2 ≤ 256 ^ overflowBytes 1 0 512 :=
  ⟨c3_overflow_sizing.1 1 2 2 (by decide),
   (c3_overflow_sizing.2.1 1 0 512 (by decide)).1⟩

/-- C4: when the overflow region is present and reads as a nonzero integer
`E`, decode returns
`min(numEmptyCases, numXI + (E - 1) * 2^(8*payloadSize) + payload + 1)`;
on the 1-byte/no-extra-inhabitant/512-case layout this yields the five
concrete decodes asserted by the unit tests. -/
theorem c4_overflow_decode :
    (∀ (cap : PayloadCapability) (nec : Nat) (buf : List Nat),
      0 < overflowBytes cap.payloadSize cap.numXI nec →
      readLE ((buf.drop cap.payloadSize).take
        (overflowBytes cap.payloadSize cap.numXI nec)) ≠ 0 →
      decode cap nec buf =
        min nec (cap.numXI +
          (readLE ((buf.drop cap.payloadSize).take
            (overflowBytes cap.payloadSize cap.numXI nec)) - 1) *
            payloadCardinality cap.payloadSize +
          readLE (buf.take cap.payloadSize) + 1)) ∧
    decode byteNoXICap 512 [0, 0] = 0 ∧
    decode byteNoXICap 512 [255, 0] = 0 ∧
    decode byteNoXICap 512 [0, 1] = 1 ∧
    decode byteNoXICap 512 [255, 1] = 256 ∧
    decode byteNoXICap 512 [255, 2] = 512 := by
  refine ⟨?_, by decide, by decide, by decide, by decide, by decide⟩
  intro cap nec buf hob he
  have hnec : nec ≠ 0 := by
    intro h
    rw [h, overflowBytes_of_le (Nat.zero_le _)] at hob
    omega
  unfold decode
  rw [if_neg hnec, if_pos ⟨hob, he⟩]

/-- Witness for C4: the general overflow-decode formula instantiated at the
buffer `[255, 2]` of the 512-case layout. -/
theorem c4_overflow_decode_witness :
    decode byteNoXICap 512 [255, 2] =
      min 512 (byteNoXICap.numXI +
        (readLE (([255, 2].drop byteNoXICap.payloadSize).take
          (overflowBytes byteNoXICap.payloadSize byteNoXICap.numXI 512)) - 1) *
          payloadCardinality byteNoXICap.payloadSize +
        readLE ([255, 2].take byteNoXICap.payloadSize) + 1) :=
  c4_overflow_decode.1 byteNoXICap 512 [255, 2] (by decide) (by decide)

/-- C5: on the overflow path (`numXI < caseIndex ≤ numEmptyCases`, which
forces a nonempty overflow region) encode writes
`(caseIndex - numXI - 1) mod 2^(8*payloadSize)` into the payload region and
`(caseIndex - numXI - 1) / 2^(8*payloadSize) + 1` into the overflow region,
little-endian; and the two concrete byte patterns of the claim are
reproduced. -/
theorem c5_overflow_encode :
    (∀ (cap : PayloadCapability) (nec : Nat) (buf : List Nat) (i : Nat),
      cap.numXI < i → i ≤ nec →
      0 < overflowBytes cap.payloadSize cap.numXI nec ∧
      encode cap nec buf i =
        writeLE cap.payloadSize
          ((i - cap.numXI - 1) % payloadCardinality cap.payloadSize) ++
        writeLE (overflowBytes cap.payloadSize cap.numXI nec)
          ((i - cap.numXI - 1) / payloadCardinality cap.payloadSize + 1)) ∧
    encode byteXICap 2 [219] 1 = [254] ∧
    encode byteNoXICap 512 [219, 123] 512 = [255, 2] := by
  refine ⟨?_, by decide, by decide⟩
  intro cap nec buf i hxi hle
  refine ⟨overflowBytes_pos (lt_of_lt_of_le hxi hle), ?_⟩
  unfold encode
  rw [if_neg (by omega), if_neg (by omega)]

/-- Witness for C5: the overflow-encode formula instantiated at case 512 of
the 512-case layout. -/
theorem c5_overflow_encode_witness :
    0 < overflowBytes byteNoXICap.payloadSize byteNoXICap.numXI 512 ∧
    encode byteNoXICap 512 [219, 123] 512 =
      writeLE byteNoXICap.payloadSize
        ((512 - byteNoXICap.numXI - 1) % payloadCardinality byteNoXICap.payloadSize) ++
      writeLE (overflowBytes byteNoXICap.payloadSize byteNoXICap.numXI 512)
        ((512 - byteNoXICap.numXI - 1) / payloadCardinality byteNoXICap.payloadSize + 1) :=
  c5_overflow_encode.1 byteNoXICap 512 [219, 123] 512 (by decide) (by decide)

/-- C6: when the overflow region is absent or reads as zero and `numXI > 0`,
decode returns 0 for spare tag 0 and `min(tag, numEmptyCases)` otherwise; the
five concrete decodes of the extra-inhabitant layouts hold. -/
theorem c6_spare_decode :
    (∀ (cap : PayloadCapability) (nec : Nat) (buf : List Nat),
      0 < cap.numXI →
      readLE ((buf.drop cap.payloadSize).take
        (overflowBytes cap.payloadSize cap.numXI nec)) = 0 →
      decode cap nec buf =
        if cap.readSpareTag (buf.take cap.payloadSize) = 0 then 0
        else min (cap.readSpareTag (buf.take cap.payloadSize)) nec) ∧
    decode byteXICap 2 [253] = 0 ∧ decode byteXICap 2 [254] = 1 ∧
    decode byteXICap 2 [255] = 2 ∧ decode byteXICap 4 [0, 1] = 3 ∧
    decode byteXICap 4 [1, 1] = 4 := by
  refine ⟨?_, by decide, by decide, by decide, by decide, by decide⟩
  intro cap nec buf hxi he
  by_cases hnec : nec = 0
  · simp [decode, hnec]
  · unfold decode
    rw [if_neg hnec, if_neg (by simp [he]), if_pos hxi]

/-- Witness for C6: the spare-path formula instantiated at buffer `[254]` of
the two-empty-case extra-inhabitant layout. -/
theorem c6_spare_decode_witness :
    decode byteXICap 2 [254] =
      if byteXICap.readSpareTag ([254].take byteXICap.payloadSize) = 0 then 0
      else min (byteXICap.readSpareTag ([254].take byteXICap.payloadSize)) 2 :=
  c6_spare_decode.1 byteXICap 2 [254] (by decide) (by decide)

/-- C7: for a fixed layout with consistent, length-preserving spare-tag
callbacks, encoding is injective on the empty cases - two distinct case
indices in `[1, numEmptyCases]`, each encoded over any starting buffer of the
derived length, always produce different byte lists - and a buffer produced
by encoding any case index `≥ 1` never decodes as case 0. -/
theorem c7_disjointness (cap : PayloadCapability)
    (hread : ∀ p k, 1 ≤ k → k ≤ cap.numXI →
      cap.readSpareTag (cap.writeSpareTag p k) = k)
    (hwlen : ∀ p k, p.length = cap.payloadSize →
      (cap.writeSpareTag p k).length = cap.payloadSize)
    (nec : Nat) :
    (∀ (i j : Nat) (b1 b2 : List Nat),
      b1.length = sizeOfRepresentation cap.payloadSize cap.numXI nec →
      b2.length = sizeOfRepresentation cap.payloadSize cap.numXI nec →
      1 ≤ i → i ≤ nec → 1 ≤ j → j ≤ nec → i ≠ j →
      encode cap nec b1 i ≠ encode cap nec b2 j) ∧
    (∀ (i : Nat) (b : List Nat),
      b.length = sizeOfRepresentation cap.payloadSize cap.numXI nec →
      1 ≤ i → i ≤ nec →
      decode cap nec (encode cap nec b i) ≠ 0) := by
  have hrt : ∀ (i : Nat) (b : List Nat),
      b.length = sizeOfRepresentation cap.payloadSize cap.numXI nec →
      1 ≤ i → i ≤ nec → decode cap nec (encode cap nec b i) = i := by
    intro i b hb h1 h2
    exact decode_encode cap nec i b hread hwlen hb h2 (fun h => absurd h (by omega))
  constructor
  · intro i j b1 b2 hb1 hb2 h1i h2i h1j h2j hij heq
    apply hij
    rw [← hrt i b1 hb1 h1i h2i, ← hrt j b2 hb2 h1j h2j, heq]
  · intro i b hb h1 h2
    rw [hrt i b hb h1 h2]
    omega

/-- Witness for C7: cases 1 and 3 of the four-empty-case extra-inhabitant
layout encode to different buffers, and case 3's encoding does not decode as
case 0. -/
theorem c7_disjointness_witness :
    encode byteXICap 4 [219, 123] 1 ≠ encode byteXICap 4 [219, 123] 3 ∧
    decode byteXICap 4 (encode byteXICap 4 [219, 123] 3) ≠ 0 :=
  ⟨(c7_disjointness byteXICap byteXI_read_write byteXI_write_length 4).1
      1 3 [219, 123] [219, 123] (by decide) (by decide) (by decide) (by decide)
      (by decide) (by decide) (by decide),
   (c7_disjointness byteXICap byteXI_read_write byteXI_write_length 4).2
      3 [219, 123] (by decide) (by decide) (by decide)⟩

/-- C8: for fixed `payloadSize` and `numXI`, the derived constant
`overflowBytes` is monotonically non-decreasing in `numEmptyCases`. -/
theorem c8_overflow_monotone (ps xi n1 n2 : Nat) (h : n1 ≤ n2) :
    overflowBytes ps xi n1 ≤ overflowBytes ps xi n2 := by
  by_cases h1 : n1 ≤ xi
  · rw [overflowBytes_of_le h1]
    exact Nat.zero_le _
  · have h2 : ¬ n2 ≤ xi := by omega
    unfold overflowBytes
    rw [if_neg h1, if_neg h2]
    apply leastBytes_mono
    have hdiv : (n1 - xi - 1) / payloadCardinality ps ≤
        (n2 - xi - 1) / payloadCardinality ps :=
      Nat.div_le_div_right (by omega)
    omega

/-- Witness for C8 at the two layouts of the unit tests. -/
theorem c8_overflow_monotone_witness :
    overflowBytes 1 0 512 ≤ overflowBytes 1 0 131072 :=
  c8_overflow_monotone 1 0 512 131072 (by decide)

/-- C9: decode is pure.  In this embedding decode takes the buffer immutably
and returns only the case index, so it cannot modify the buffer; the provable
content is that it depends on nothing but the `payloadSize + overflowBytes`
representation bytes (bytes beyond the representation never influence the
result) and that byte-for-byte equal buffers under the same layout decode to
the same case index. -/
theorem c9_decode_pure :
    (∀ (cap : PayloadCapability) (nec : Nat) (buf rest : List Nat),
      buf.length = sizeOfRepresentation cap.payloadSize cap.numXI nec →
      decode cap nec (buf ++ rest) = decode cap nec buf) ∧
    (∀ (cap : PayloadCapability) (nec : Nat) (b1 b2 : List Nat),
      b1 = b2 → decode cap nec b1 = decode cap nec b2) := by
  refine ⟨?_, fun cap nec b1 b2 h => by rw [h]⟩
  intro cap nec buf rest hbuf
  have hpsle : cap.payloadSize ≤ buf.length := by
    rw [hbuf]
    unfold sizeOfRepresentation
    omega
  have htk : (buf ++ rest).take cap.payloadSize = buf.take cap.payloadSize := by
    rw [List.take_append_eq_append_take,
      (show cap.payloadSize - buf.length = 0 by omega)]
    simp
  have hoblen : overflowBytes cap.payloadSize cap.numXI nec ≤
      (buf.drop cap.payloadSize).length := by
    rw [List.length_drop, hbuf]
    unfold sizeOfRepresentation
    omega
  have hov : ((buf ++ rest).drop cap.payloadSize).take
      (overflowBytes cap.payloadSize cap.numXI nec) =
      (buf.drop cap.payloadSize).take
        (overflowBytes cap.payloadSize cap.numXI nec) := by
    rw [List.drop_append_eq_append_drop,
      (show cap.payloadSize - buf.length = 0 by omega)]
    simp only [List.drop_zero]
    rw [List.take_append_eq_append_take,
      (show overflowBytes cap.payloadSize cap.numXI nec -
        (buf.drop cap.payloadSize).length = 0 by omega)]
    simp
  unfold decode
  rw [htk, hov]

/-- Witness for C9: bytes appended past the representation do not change the
decoded case index. -/
theorem c9_decode_pure_witness :
    decode byteXICap 2 ([254] ++ [99]) = decode byteXICap 2 [254] :=
  c9_decode_pure.1 byteXICap 2 [254] [99] (by decide)

/-- C10: the test harness's 1-byte capability is coherent with `numXI = 2`:
reading after storing tag `t ∈ {1, 2}` returns exactly `t`; the store writes
byte `253 + t` over the first byte, and the read returns `byte - 253` for
bytes above 253 and 0 otherwise. -/
theorem c10_capability_coherent :
    (∀ (t : Nat) (buf : List Nat), 1 ≤ t → t ≤ 2 →
      byte_getExtraInhabitantTag (byte_storeExtraInhabitantTag buf t) = t) ∧
    (∀ (buf : List Nat) (t : Nat),
      byte_storeExtraInhabitantTag buf t = (253 + t) :: buf.drop 1) ∧
    (∀ buf : List Nat, 253 < buf.headD 0 →
      byte_getExtraInhabitantTag buf = buf.headD 0 - 253) ∧
    (∀ buf : List Nat, buf.headD 0 ≤ 253 →
      byte_getExtraInhabitantTag buf = 0) := by
  refine ⟨?_, fun buf t => rfl, ?_, ?_⟩
  · intro t buf h1 h2
    simp only [byte_getExtraInhabitantTag, byte_storeExtraInhabitantTag,
      List.headD_cons]
    rw [if_pos (by omega)]
    omega
  · intro buf h
    simp only [byte_getExtraInhabitantTag]
    rw [if_pos h]
  · intro buf h
    simp only [byte_getExtraInhabitantTag]
    rw [if_neg (by omega)]

/-- Witness for C10: storing tag 2 over a genuine byte and reading it back. -/
theorem c10_capability_coherent_witness :
    byte_getExtraInhabitantTag (byte_storeExtraInhabitantTag [7] 2) = 2 :=
  c10_capability_coherent.1 2 [7] (by decide) (by decide)
